import Mathlib

/-!
Verification of the ALIA-Eval parallel-corpus pipeline.

The repository has three batch scripts:
* `01_extract_paragraphs.py`  — extracts paragraphs from DOCX files, aligns the
  five language versions of each document by truncation to the shortest count,
  and writes per-document per-language text files (plus discard files).
* `02_consolidate_parallel_texts.py` — concatenates the per-document files into
  one master file per language.
* `03_verify_paragraph_counts.py` — re-reads the per-document tree and checks
  that all language files of a document have the same non-blank line count.

This file is a shallow embedding of those scripts: file contents are lists of
lines (or paragraph strings), directory trees are explicit list structures, and
the filesystem effect of the writer is a list of (path, content) writes applied
to a map `String → Option String`.
-/

/-! ### String helpers (models of the Python string primitives used) -/

/-- Model of Python `str.strip()`: drop leading and trailing whitespace. -/
def pyStrip (s : String) : String :=
  ⟨((s.data.dropWhile Char.isWhitespace).reverse.dropWhile Char.isWhitespace).reverse⟩

/-- Model of Python `str.lower()`. -/
def lowerStr (s : String) : String :=
  ⟨s.data.map Char.toLower⟩

/-- Model of Python `str.startswith`. -/
def strStarts (s p : String) : Bool :=
  List.isPrefixOf p.data s.data

/-- Is `needle` a contiguous substring of `hay`?  Models Python `needle in hay`. -/
def hasSub (needle : List Char) : List Char → Bool
  | [] => needle.isEmpty
  | c :: rest => List.isPrefixOf needle (c :: rest) || hasSub needle rest

/-! ### Extractor (`01_extract_paragraphs.py`, `DocxParagraphExtractor`)

A DOCX document is modelled by the parts of the python-docx object model the
extractor touches: the body paragraph texts (`doc.paragraphs[i].text`), the
relationship target references (`doc.part.rels[..].target_ref`), the tables,
and the sections with their header/footer paragraphs. -/

structure DocxTable where
  cells : List String

structure DocxSection where
  headerParagraphs : List String
  footerParagraphs : List String

structure Docx where
  paragraphs : List String
  relTargetRefs : List String
  tables : List DocxTable
  sections : List DocxSection

structure Issues where
  images : Nat
  tables : Nat
  headers : Nat
  footers : Nat

/-- Embedding of `DocxParagraphExtractor.extract_paragraphs` (01:20-46):
counts images via `"image" in rel.target_ref.lower()`, tables via
`len(self.doc.tables)`, header/footer paragraphs of the first section
(`self.doc.sections[0]`, 0 when there is no section), and collects the
stripped non-empty body paragraph texts in order. -/
def extractParagraphs (doc : Docx) : List String × Issues :=
  (doc.paragraphs.foldl (fun acc para =>
      let text := pyStrip para
      if text ≠ "" then acc ++ [text] else acc) [],
   { images := (doc.relTargetRefs.filter fun r => hasSub "image".data (lowerStr r).data).length
     tables := doc.tables.length
     headers := match doc.sections with | [] => 0 | s :: _ => s.headerParagraphs.length
     footers := match doc.sections with | [] => 0 | s :: _ => s.footerParagraphs.length })

/-! ### Aligner/Writer (`01_extract_paragraphs.py`, `process_document_set`)

Stage 1 handles exactly the five language codes below (the keys of
`language_patterns`); `SLang.all` lists them in the sorted order the script
iterates dictionaries in. -/

inductive SLang where
  | ca_ES
  | castellano
  | eu_ES
  | gl_ES
  | vl_ES
deriving DecidableEq

def SLang.code : SLang → String
  | .ca_ES => "ca_ES"
  | .castellano => "castellano"
  | .eu_ES => "eu_ES"
  | .gl_ES => "gl_ES"
  | .vl_ES => "vl_ES"

def SLang.all : List SLang := [.ca_ES, .castellano, .eu_ES, .gl_ES, .vl_ES]

/-- `min(counts.values())` over the five per-language paragraph counts (01:106). -/
def minCount (ps : SLang → List String) : Nat :=
  Nat.min (ps .ca_ES).length (Nat.min (ps .castellano).length
    (Nat.min (ps .eu_ES).length (Nat.min (ps .gl_ES).length (ps .vl_ES).length)))

/-- `max(counts.values())` over the five per-language paragraph counts (01:107). -/
def maxCount (ps : SLang → List String) : Nat :=
  Nat.max (ps .ca_ES).length (Nat.max (ps .castellano).length
    (Nat.max (ps .eu_ES).length (Nat.max (ps .gl_ES).length (ps .vl_ES).length)))

structure AlignResult where
  outputs : SLang → List String
  discards : SLang → Option (List String)

/-- Pure core of `process_document_set` (01:105-143): when the counts differ
(`min_count != max_count`) every language with more than `min_count`
paragraphs gets a discard record holding `paragraphs[min_count:]`; every
language is then trimmed to `paragraphs[:min_count]`. -/
def processDocumentSet (ps : SLang → List String) : AlignResult :=
  let mn := minCount ps
  { outputs := fun l => (ps l).take mn
    discards := fun l =>
      if minCount ps ≠ maxCount ps then
        if (ps l).length > mn then some ((ps l).drop mn) else none
      else none }

/-! #### The writer's filesystem effect -/

abbrev FS := String → Option String

/-- Apply a list of `(path, content)` writes in order; a later write to the
same path overwrites an earlier one (the semantics of `Path.write_text`). -/
def applyWrites (ws : List (String × String)) (fs : FS) : FS :=
  ws.foldl (fun acc w => fun p => if p = w.1 then some w.2 else acc p) fs

/-- The value left at path `p` by the write list `ws` (the last write to `p`),
if any. -/
def lastVal : List (String × String) → String → Option String
  | [], _ => none
  | w :: ws, p =>
    match lastVal ws p with
    | some v => some v
    | none => if p = w.1 then some w.2 else none

/-- `'\n\n'.join(paragraphs)` (01:135, 01:157). -/
def joinParas (ps : List String) : String := String.intercalate "\n\n" ps

/-- `output_base / folder_name / doc_name / f"{lang}.txt"` (01:151-155). -/
def outputPath (folder doc : String) (l : SLang) : String :=
  "extracted_paragraphs/" ++ folder ++ "/" ++ doc ++ "/" ++ l.code ++ ".txt"

/-- `discarded_base / doc_name / f"{lang}.txt"` (01:130-134); note the source
folder name is not part of the discard path. -/
def discardPath (doc : String) (l : SLang) : String :=
  "extracted_paragraphs/discarded_texts/" ++ doc ++ "/" ++ l.code ++ ".txt"

/-- The writes `process_document_set` performs (01:129-158): first the discard
files, then the per-language output files. -/
def writerWrites (folder doc : String) (ps : SLang → List String) :
    List (String × String) :=
  (SLang.all.filterMap fun l =>
    ((processDocumentSet ps).discards l).map fun tail =>
      (discardPath doc l, joinParas tail))
  ++ SLang.all.map fun l =>
      (outputPath folder doc l, joinParas ((processDocumentSet ps).outputs l))

/-- Running `process_document_set`'s write phase against a filesystem. -/
def runWriter (folder doc : String) (ps : SLang → List String) (fs : FS) : FS :=
  applyWrites (writerWrites folder doc ps) fs

/-! ### Discovery (`01_extract_paragraphs.py`, `discover_document_sets`)

The `language_patterns` regexes all have the shape `[_-]ALT\.docx$` for a fixed
set of alternatives `ALT`, so a filename matches a pattern exactly when it ends
with `_ALT.docx` or `-ALT.docx` for one of the alternatives, and
`re.sub(pattern, '', name)` then removes exactly that suffix. -/

/-- The `language_patterns` table (01:179-185), in its iteration order:
language code paired with the suffix alternatives of its regex. -/
def langTable : List (String × List String) :=
  [("castellano", ["castellano"]),
   ("ca_ES", ["ca-ES", "ca_ES"]),
   ("vl_ES", ["ca-ES-valencia", "va_ES", "vl_ES"]),
   ("gl_ES", ["gl-ES", "gl_ES", "ga_ES"]),
   ("eu_ES", ["eu-ES", "eu_ES"])]

def langCodes : List String := langTable.map Prod.fst

/-- The two concrete suffixes the regex alternative `alt` can match
(`[_-]` is the separator class, `\.docx$` the extension). -/
def suffixForms (alt : String) : List String :=
  ["_" ++ alt ++ ".docx", "-" ++ alt ++ ".docx"]

/-- If one of the alternatives matches `name`, the base name left after
`re.sub` removes the matched suffix. -/
def stripAlt (name : String) : List String → Option String
  | [] => none
  | alt :: rest =>
    match (suffixForms alt).find? (fun suf => List.isSuffixOf suf.data name.data) with
    | some suf => some ⟨name.data.take (name.data.length - suf.data.length)⟩
    | none => stripAlt name rest

/-- First-match-wins pattern resolution (01:204-208): the first entry of
`langTable` whose regex matches `name` yields `(lang_code, base_name)`. -/
def matchLang (name : String) : Option (String × String) :=
  langTable.findSome? fun entry =>
    (stripAlt name entry.2).map fun base => (entry.1, base)

/-- The `(lang_code, base_name)` pairs that get grouped (01:196-213): temp
files (leading `~`) are skipped, unmatched files are dropped, and a file whose
computed base name is empty fails the `if lang_found and base_name` test. -/
def matchedFiles (files : List String) : List (String × String) :=
  files.filterMap fun n =>
    if strStarts n "~" then none
    else match matchLang n with
      | some (code, base) => if base = "" then none else some (code, base)
      | none => none

/-- The distinct language codes collected for `base` — the key set of
`file_groups[base]`. -/
def langsOf (files : List String) (base : String) : List String :=
  ((matchedFiles files).filterMap fun cb =>
    if cb.2 = base then some cb.1 else none).dedup

/-- The base names kept by `discover_document_sets` for one folder
(01:215-219): only groups with all 5 languages survive. -/
def discoveredBases (files : List String) : List String :=
  (((matchedFiles files).map Prod.snd).dedup).filter fun base =>
    (langsOf files base).length = 5

/-! ### The aligned-output tree

Both the Consolidator and the Verifier walk
`extracted_paragraphs/<folder>/<document>/<stem>.txt`.  A file is modelled by
its stem (name without `.txt`) and its list of lines. -/

structure DocDir where
  name : String
  files : List (String × List String)

structure Folder where
  name : String
  docs : List DocDir

/-! ### Consolidator (`02_consolidate_parallel_texts.py`) -/

/-- `LANG_MAPPING` (02:11-17), in iteration order. -/
def LANG_MAPPING : List (String × String) :=
  [("castellano", "es"), ("ca_ES", "ca"), ("va_ES", "va"),
   ("ga_ES", "ga"), ("eu_ES", "eu")]

/-- `LANG_MAPPING.get(stem)` (02:61). -/
def lookupLang (stem : String) : Option String :=
  (LANG_MAPPING.find? fun p => p.1 = stem).map Prod.snd

/-- `[line.rstrip('\n') for line in f if line.strip()]` (02:65): keep the
non-blank lines (each modelled line already carries no trailing newline). -/
def stripBlank (lines : List String) : List String :=
  lines.filter fun l => pyStrip l ≠ ""

/-- The `doc_paragraphs` dictionary built at 02:56-68: each `*.txt` file whose
stem is a `LANG_MAPPING` key contributes its non-blank lines under the mapped
code.  Stems in one directory are distinct, so this association list models
the dictionary. -/
def readDocParagraphs (d : DocDir) : List (String × List String) :=
  d.files.filterMap fun f =>
    (lookupLang f.1).map fun code => (code, stripBlank f.2)

/-- The `paragraph_count` accumulation (02:67-68): the count of the first read
file, unless that was 0, in which case later files may set it. -/
def firstNonzero : List Nat → Nat
  | [] => 0
  | n :: rest => if n = 0 then firstNonzero rest else n

/-- `min` over a Python list of counts (total with default 0; the script only
calls it on a non-empty dict). -/
def minNat : List Nat → Nat
  | [] => 0
  | n :: rest => rest.foldl Nat.min n

/-- The per-document read-and-check step (02:56-79): read all language files,
and when `len(set(counts.values())) > 1` truncate every list to the shared
minimum and use that minimum as the paragraph count. -/
def processDoc (d : DocDir) : List (String × List String) × Nat :=
  let ps := readDocParagraphs d
  let counts := ps.map fun p => p.2.length
  if counts.dedup.length > 1 then
    let m := minNat counts
    (ps.map fun p => (p.1, p.2.take m), m)
  else (ps, firstNonzero counts)

/-- Append `lines` to the master stream of `code`. -/
def appendTo (masters : List (String × List String)) (code : String)
    (lines : List String) : List (String × List String) :=
  masters.map fun m => if m.1 = code then (m.1, m.2 ++ lines) else m

/-- The write loop at 02:82-88: for each language code in `LANG_MAPPING`
order, append that document's paragraphs (when present) to its master file. -/
def writeDoc (masters : List (String × List String))
    (ps : List (String × List String)) : List (String × List String) :=
  LANG_MAPPING.foldl (fun acc entry =>
    match ps.find? fun q => q.1 = entry.2 with
    | some q => appendTo acc entry.2 q.2
    | none => acc) masters

/-- One iteration of the document loop (02:48-89): write only when
`doc_paragraphs` is non-empty and `paragraph_count > 0`. -/
def consolidateDoc (st : List (String × List String) × Nat) (d : DocDir) :
    List (String × List String) × Nat :=
  let r := processDoc d
  if r.1 ≠ [] ∧ r.2 > 0 then (writeDoc st.1 r.1, st.2 + r.2)
  else st

/-- The five master streams, initially empty (02:29-31). -/
def initMasters : List (String × List String) :=
  LANG_MAPPING.map fun e => (e.2, [])

/-- `consolidate_parallel_texts` (02:19-101) reduced to its data effect:
folders whose name starts with `.` or equals `discarded_texts` are skipped;
the result is the master stream per language code together with
`total_paragraphs`.  The input list stands for the sorted directory walk. -/
def consolidate (folders : List Folder) : List (String × List String) × Nat :=
  folders.foldl (fun st folder =>
    if strStarts folder.name "." ∨ folder.name = "discarded_texts" then st
    else folder.docs.foldl consolidateDoc st) (initMasters, 0)

/-! ### Verifier (`03_verify_paragraph_counts.py`) -/

/-- The `languages` list of the verifier (03:27) — note it agrees with stage
1's codes, unlike `LANG_MAPPING`. -/
def verifyLangs : List String :=
  ["castellano", "ca_ES", "vl_ES", "gl_ES", "eu_ES"]

/-- `count_paragraphs` (03:9-14) composed with the existence check
(03:50-53): the non-blank line count of each language file that exists, in
`languages` order. -/
def docCounts (d : DocDir) : List Nat :=
  verifyLangs.filterMap fun lang =>
    (d.files.find? fun e => e.1 = lang).map fun e =>
      (e.2.filter fun l => pyStrip l ≠ "").length

/-- `len(unique_counts) == 1` (03:57-58). -/
def docPasses (d : DocDir) : Bool :=
  (docCounts d).dedup.length == 1

/-- `verify_all_documents` (03:16-74): `all_ok` is true exactly when no
document in any folder records a mismatch.  The embedding is a pure function
of the tree — the script only reads files. -/
def verifyAll (folders : List Folder) : Bool :=
  folders.all fun f => f.docs.all docPasses

/-! ### Batch drivers and error handling

The outcome of processing one document set is abstracted as an
`Except String Unit` input, so the drivers' control flow around failures can
be stated.  Stage 1 (01:264-275) wraps the body in `try/except`; the
Consolidator's document loop (02:41-93) has no handler, so in the embedding a
failure propagates through the monadic fold. -/

/-- One iteration of stage 1's loop body (01:264-275): a success increments
`successful`, a failure increments `failed` and logs
`Error processing {doc_name}: {e}`. -/
def mb1step (acc : Nat × Nat × List String) (o : String × Except String Unit) :
    Nat × Nat × List String :=
  match o.2 with
  | Except.ok _ => (acc.1 + 1, acc.2.1, acc.2.2)
  | Except.error e =>
      (acc.1, acc.2.1 + 1,
       acc.2.2 ++ ["Error processing " ++ o.1 ++ ": " ++ e])

/-- Stage 1's loop: returns `(successful, failed, error log)`; every entry is
attempted. -/
def mainBatch1 (outcomes : List (String × Except String Unit)) :
    Nat × Nat × List String :=
  outcomes.foldl mb1step (0, 0, [])

/-- Is the outcome a failure? -/
def isErr : Except String Unit → Bool
  | Except.error _ => true
  | Except.ok _ => false

/-- The Consolidator's loop with no handler around the body: the first
failure escapes and ends the loop.  `n` counts the documents processed so
far. -/
def mb2go (n : Nat) : List (String × Except String Unit) → Except String Nat
  | [] => Except.ok n
  | (_, Except.ok _) :: rest => mb2go (n + 1) rest
  | (_, Except.error e) :: _ => Except.error e

/-- The Consolidator's document loop (02:48-89 with no `try/except`): on
success it returns the number of documents processed; a failing document
aborts the remaining documents. -/
def mainBatch2 (outcomes : List (String × Except String Unit)) :
    Except String Nat :=
  mb2go 0 outcomes

/-! ### Concrete example inputs used by witnesses and the C1 evaluation -/

/-- A document set where `castellano` has one paragraph more than the rest. -/
def exPs : SLang → List String
  | .castellano => ["a", "b"]
  | _ => ["a"]

/-- A document set where all five languages have two paragraphs. -/
def exPsEq : SLang → List String := fun _ => ["x", "y"]

def emptyFS : FS := fun _ => none

def fullFS : FS := fun p => some p

def exDoc : Docx :=
  { paragraphs := ["  hi ", " ", "yo"]
    relTargetRefs := ["media/image1.png", "styles.xml"]
    tables := []
    sections := [] }

/-- A document directory holding all five language files, one paragraph each. -/
def exDocDir : DocDir :=
  ⟨"d1", [("castellano", ["a"]), ("ca_ES", ["a"]), ("vl_ES", ["a"]),
          ("gl_ES", ["a"]), ("eu_ES", ["a"])]⟩

/-- A document directory with only two of the five language files. -/
def exPartialDoc : DocDir := ⟨"d2", [("castellano", ["a"]), ("ca_ES", ["b"])]⟩

/-- A document directory with none of the five language files. -/
def exEmptyDoc : DocDir := ⟨"d0", [("notes", ["x"])]⟩

/-- A concrete document directory for the Consolidator with a count mismatch
(castellano has two paragraphs, the rest one). -/
def exConsDoc : DocDir :=
  ⟨"d3", [("castellano", ["a", "b"]), ("ca_ES", ["a"]), ("va_ES", ["a"]),
          ("ga_ES", ["a"]), ("eu_ES", ["a"])]⟩

/-- A stage-1 aligned-output tree: one folder, one document, one aligned
paragraph per language, with the per-document files named by stage 1's five
language codes (`{lang}.txt` for `lang` in `language_patterns`). -/
def stage1OutTree : List Folder :=
  [⟨"Actualidad", [⟨"doc1",
    [("castellano", ["Hola"]), ("ca_ES", ["Hola"]), ("vl_ES", ["Hola"]),
     ("gl_ES", ["Ola"]), ("eu_ES", ["Kaixo"])]⟩]⟩]

/-- The master stream the Consolidator leaves for a language code, on the
tree above. -/
def masterOf (code : String) : List String :=
  (((consolidate stage1OutTree).1.find? fun e => e.1 = code).map Prod.snd).getD []

/-- A complete five-language file set for base name `a`. -/
def files5 : List String :=
  ["a_castellano.docx", "a_ca-ES.docx", "a_vl_ES.docx", "a_gl_ES.docx",
   "a_eu-ES.docx"]

/-! ### Helper lemmas -/

theorem applyWrites_apply (ws : List (String × String)) (fs : FS) (p : String) :
    applyWrites ws fs p
      = match lastVal ws p with
        | some v => some v
        | none => fs p := by
  induction ws generalizing fs with
  | nil => rfl
  | cons w ws ih =>
    show applyWrites ws (fun q => if q = w.1 then some w.2 else fs q) p = _
    rw [ih]
    cases h : lastVal ws p with
    | some v => simp [lastVal, h]
    | none =>
      simp only [lastVal, h]
      by_cases hp : p = w.1 <;> simp [hp]

theorem applyWrites_idem (ws : List (String × String)) (fs : FS) :
    applyWrites ws (applyWrites ws fs) = applyWrites ws fs := by
  funext p
  rw [applyWrites_apply]
  cases h : lastVal ws p with
  | some v => rw [applyWrites_apply, h]
  | none => simp only

theorem lastVal_isSome_of_mem (ws : List (String × String)) (p : String)
    (hp : p ∈ ws.map Prod.fst) : ∃ v, lastVal ws p = some v := by
  induction ws with
  | nil => simp at hp
  | cons w ws ih =>
    simp only [List.map_cons, List.mem_cons] at hp
    cases h : lastVal ws p with
    | some v => exact ⟨v, by simp [lastVal, h]⟩
    | none =>
      rcases hp with hp | hp
      · subst hp
        exact ⟨w.2, by simp [lastVal, h]⟩
      · obtain ⟨v, hv⟩ := ih hp
        rw [hv] at h
        cases h

theorem extract_foldl (l : List String) (acc : List String) :
    l.foldl (fun a para =>
        let text := pyStrip para
        if text ≠ "" then a ++ [text] else a) acc
      = acc ++ (l.map pyStrip).filter (fun t => t ≠ "") := by
  induction l generalizing acc with
  | nil => simp
  | cons p l ih =>
    simp only [List.foldl_cons, List.map_cons, List.filter_cons]
    by_cases h : pyStrip p ≠ ""
    · rw [if_pos h, ih]
      simp [h]
    · rw [if_neg h, ih]
      simp [h]

theorem dedup_length_le_one {l : List Nat} (h : l.dedup.length ≤ 1) :
    ∀ a ∈ l, ∀ b ∈ l, a = b := by
  intro a ha b hb
  have ha' : a ∈ l.dedup := List.mem_dedup.mpr ha
  have hb' : b ∈ l.dedup := List.mem_dedup.mpr hb
  rcases hd : l.dedup with _ | ⟨x, _ | ⟨y, t⟩⟩
  · rw [hd] at ha'; simp at ha'
  · rw [hd] at ha' hb'
    simp only [List.mem_singleton] at ha' hb'
    rw [ha', hb']
  · rw [hd] at h; simp at h

theorem dedup_length_eq_one_iff (l : List Nat) :
    l.dedup.length = 1 ↔ l ≠ [] ∧ ∀ a ∈ l, ∀ b ∈ l, a = b := by
  constructor
  · intro h
    refine ⟨?_, dedup_length_le_one (by omega)⟩
    intro hnil
    rw [hnil] at h
    simp at h
  · rintro ⟨hne, hall⟩
    obtain ⟨x, hx⟩ := List.exists_mem_of_ne_nil l hne
    have hx' : x ∈ l.dedup := List.mem_dedup.mpr hx
    have hone : ∀ a ∈ l.dedup, a = x := fun a ha => hall a (List.mem_dedup.mp ha) x hx
    have hnd := l.nodup_dedup
    rcases hd : l.dedup with _ | ⟨y, _ | ⟨z, t⟩⟩
    · rw [hd] at hx'; simp at hx'
    · simp
    · exfalso
      rw [hd] at hone hnd
      have hy := hone y (by simp)
      have hz := hone z (by simp)
      rw [List.nodup_cons] at hnd
      apply hnd.1
      rw [hy, ← hz]
      exact List.mem_cons_self z t

theorem foldl_min_le_init (l : List Nat) (a : Nat) : l.foldl Nat.min a ≤ a := by
  induction l generalizing a with
  | nil => simp
  | cons x l ih => exact le_trans (ih (Nat.min a x)) (Nat.min_le_left a x)

theorem foldl_min_le_mem (l : List Nat) (a n : Nat) (h : n ∈ l) :
    l.foldl Nat.min a ≤ n := by
  induction l generalizing a with
  | nil => simp at h
  | cons x l ih =>
    rcases List.mem_cons.mp h with rfl | h'
    · exact le_trans (foldl_min_le_init l (Nat.min a n)) (Nat.min_le_right a n)
    · exact ih (Nat.min a x) h'

theorem minNat_le {l : List Nat} {n : Nat} (h : n ∈ l) : minNat l ≤ n := by
  cases l with
  | nil => simp at h
  | cons x xs =>
    rcases List.mem_cons.mp h with rfl | h'
    · exact foldl_min_le_init xs n
    · exact foldl_min_le_mem xs x n h'

theorem filterMap_length_all_isSome {α β : Type} {f : α → Option β} :
    ∀ {l : List α}, (∀ a ∈ l, (f a).isSome) → (l.filterMap f).length = l.length := by
  intro l
  induction l with
  | nil => simp
  | cons x l ih =>
    intro h
    have hx := h x (by simp)
    cases hfx : f x with
    | none => rw [hfx] at hx; simp at hx
    | some b =>
      rw [List.filterMap_cons, hfx]
      simp [ih fun a ha => h a (by simp [ha])]

theorem length_filterMap_eq_length_filter {α β : Type} (f : α → Option β)
    (l : List α) :
    (l.filterMap f).length = (l.filter fun a => (f a).isSome).length := by
  induction l with
  | nil => rfl
  | cons x l ih =>
    cases hfx : f x <;> simp [List.filterMap_cons, List.filter_cons, hfx, ih]

theorem mb1_foldl_spec (outcomes : List (String × Except String Unit)) :
    ∀ (s f : Nat) (log : List String),
      (outcomes.foldl mb1step (s, f, log)).1
          + (outcomes.foldl mb1step (s, f, log)).2.1 = s + f + outcomes.length ∧
      (outcomes.foldl mb1step (s, f, log)).2.1
          = f + (outcomes.filter fun o => isErr o.2).length ∧
      (∀ msg ∈ log, msg ∈ (outcomes.foldl mb1step (s, f, log)).2.2) ∧
      (∀ doc e, (doc, Except.error e) ∈ outcomes →
        ("Error processing " ++ doc ++ ": " ++ e)
          ∈ (outcomes.foldl mb1step (s, f, log)).2.2) := by
  induction outcomes with
  | nil =>
    intro s f log
    exact ⟨by simp, by simp, by simp, by simp⟩
  | cons o rest ih =>
    intro s f log
    obtain ⟨d, r⟩ := o
    cases r with
    | ok u =>
      have H := ih (s + 1) f log
      simp only [List.foldl_cons, mb1step]
      refine ⟨by rw [H.1]; simp; omega, ?_, H.2.2.1, ?_⟩
      · rw [H.2.1]
        simp [isErr]
      · intro doc e hmem
        rcases List.mem_cons.mp hmem with heq | hmem'
        · exact absurd heq (by simp)
        · exact H.2.2.2 doc e hmem'
    | error e0 =>
      have H := ih s (f + 1) (log ++ ["Error processing " ++ d ++ ": " ++ e0])
      simp only [List.foldl_cons, mb1step]
      refine ⟨by rw [H.1]; simp; omega, ?_, ?_, ?_⟩
      · rw [H.2.1]
        simp [isErr]
        omega
      · intro msg hmsg
        exact H.2.2.1 msg (by simp [hmsg])
      · intro doc e hmem
        rcases List.mem_cons.mp hmem with heq | hmem'
        · obtain ⟨hd, he⟩ := Prod.mk.injEq .. ▸ heq
          injection he with he'
          subst hd he'
          exact H.2.2.1 _ (by simp)
        · exact H.2.2.2 doc e hmem'

theorem mb2go_ok {outcomes : List (String × Except String Unit)} :
    ∀ {n m : Nat}, mb2go n outcomes = Except.ok m →
      ∀ o ∈ outcomes, ∃ u, o.2 = Except.ok u := by
  induction outcomes with
  | nil =>
    intro n m _ o ho
    simp at ho
  | cons x rest ih =>
    intro n m h o ho
    obtain ⟨d, r⟩ := x
    cases r with
    | error e =>
      simp only [mb2go] at h
      exact absurd h (by simp)
    | ok u =>
      simp only [mb2go] at h
      rcases List.mem_cons.mp ho with rfl | ho'
      · exact ⟨u, rfl⟩
      · exact ih h o ho'

/-! ### Claims -/

/-- C9: running the Aligner/Writer twice on the same extracted paragraph
sequences produces byte-identical output and discard files: the write phase is
idempotent on the filesystem, and the content left at every written path is
independent of the filesystem the run started from. -/
theorem writer_deterministic_idempotent (folder doc : String)
    (ps : SLang → List String) (fs fs1 fs2 : FS) :
    runWriter folder doc ps (runWriter folder doc ps fs) = runWriter folder doc ps fs ∧
    ∀ p, p ∈ (writerWrites folder doc ps).map Prod.fst →
      runWriter folder doc ps fs1 p = runWriter folder doc ps fs2 p := by
  constructor
  · exact applyWrites_idem _ _
  · intro p hp
    obtain ⟨v, hv⟩ := lastVal_isSome_of_mem _ _ hp
    rw [runWriter, runWriter, applyWrites_apply, applyWrites_apply, hv]

/-- Witness for C9 at a concrete document set: the castellano output file has
the same content whether the writer runs over an empty or a fully populated
filesystem. -/
theorem writer_deterministic_idempotent_witness :
    runWriter "F" "doc" exPs emptyFS (outputPath "F" "doc" SLang.castellano)
      = runWriter "F" "doc" exPs fullFS (outputPath "F" "doc" SLang.castellano) :=
  (writer_deterministic_idempotent "F" "doc" exPs emptyFS emptyFS fullFS).2 _ (by decide)

/-- C4: the Extractor returns the ordered body-paragraph texts stripped of
leading/trailing whitespace with empty-after-strip paragraphs dropped, plus
counts of images (relationships whose target reference mentions image
content), tables, and header/footer paragraphs; the counted elements never
enter the returned paragraph sequence (it is a function of the body
paragraphs alone, and every returned paragraph is the strip of some body
paragraph). -/
theorem extractor_contract (doc : Docx) :
    (extractParagraphs doc).1 = (doc.paragraphs.map pyStrip).filter (fun t => t ≠ "") ∧
    (∀ p ∈ (extractParagraphs doc).1, ∃ q ∈ doc.paragraphs, p = pyStrip q ∧ p ≠ "") ∧
    (∀ (rels : List String) (tbls : List DocxTable) (secs : List DocxSection),
      (extractParagraphs
        { doc with relTargetRefs := rels, tables := tbls, sections := secs }).1
        = (extractParagraphs doc).1) ∧
    (extractParagraphs doc).2.images
      = (doc.relTargetRefs.filter fun r => hasSub "image".data (lowerStr r).data).length ∧
    (extractParagraphs doc).2.tables = doc.tables.length ∧
    (extractParagraphs doc).2.headers
      = (match doc.sections with | [] => 0 | s :: _ => s.headerParagraphs.length) ∧
    (extractParagraphs doc).2.footers
      = (match doc.sections with | [] => 0 | s :: _ => s.footerParagraphs.length) := by
  have h1 : (extractParagraphs doc).1
      = (doc.paragraphs.map pyStrip).filter (fun t => t ≠ "") := by
    have h := extract_foldl doc.paragraphs []
    simpa [extractParagraphs] using h
  refine ⟨h1, ?_, ?_, rfl, rfl, rfl, rfl⟩
  · intro p hp
    rw [h1] at hp
    obtain ⟨hp1, hp2⟩ := List.mem_filter.mp hp
    obtain ⟨q, hq, rfl⟩ := List.mem_map.mp hp1
    exact ⟨q, hq, rfl, by simpa using hp2⟩
  · intro rels tbls secs
    rfl

/-- Witness for C4: in the concrete document, the stripped paragraph `"hi"`
originates from a body paragraph. -/
theorem extractor_contract_witness :
    ∃ q ∈ exDoc.paragraphs, "hi" = pyStrip q ∧ "hi" ≠ "" :=
  (extractor_contract exDoc).2.1 "hi" (by decide)

/-- C2: when the five paragraph sequences are not all the same length, every
language's written output has length `min` of the five original lengths (and
`minCount` is that minimum: below every length and attained), and every
language longer than the minimum gets a discard record holding exactly the
tail `sequence[min_count:]`, i.e. `original_count - min_count` paragraphs. -/
theorem aligner_unequal_counts (ps : SLang → List String)
    (h : minCount ps ≠ maxCount ps) :
    (∀ l, ((processDocumentSet ps).outputs l).length = minCount ps) ∧
    (∀ l, minCount ps ≤ (ps l).length) ∧
    (∃ l, minCount ps = (ps l).length) ∧
    (∀ l, minCount ps < (ps l).length →
      (processDocumentSet ps).discards l = some ((ps l).drop (minCount ps)) ∧
      ((ps l).drop (minCount ps)).length = (ps l).length - minCount ps) := by
  have hle : ∀ l, minCount ps ≤ (ps l).length := by
    intro l
    unfold minCount
    cases l
    case ca_ES => exact Nat.min_le_left _ _
    case castellano => exact le_trans (Nat.min_le_right _ _) (Nat.min_le_left _ _)
    case eu_ES =>
      exact le_trans (Nat.min_le_right _ _)
        (le_trans (Nat.min_le_right _ _) (Nat.min_le_left _ _))
    case gl_ES =>
      exact le_trans (Nat.min_le_right _ _) (le_trans (Nat.min_le_right _ _)
        (le_trans (Nat.min_le_right _ _) (Nat.min_le_left _ _)))
    case vl_ES =>
      exact le_trans (Nat.min_le_right _ _) (le_trans (Nat.min_le_right _ _)
        (le_trans (Nat.min_le_right _ _) (Nat.min_le_right _ _)))
  refine ⟨?_, hle, ?_, ?_⟩
  · intro l
    simp [processDocumentSet, List.length_take, Nat.min_eq_left (hle l)]
  · have hor : ∀ a b : Nat, Nat.min a b = a ∨ Nat.min a b = b := by
      intro a b
      by_cases hab : a ≤ b
      · left; exact Nat.min_eq_left hab
      · right; exact Nat.min_eq_right (le_of_not_le hab)
    rcases hor (ps .ca_ES).length (Nat.min (ps .castellano).length
        (Nat.min (ps .eu_ES).length (Nat.min (ps .gl_ES).length (ps .vl_ES).length)))
      with h1 | h1
    · exact ⟨.ca_ES, by unfold minCount; rw [h1]⟩
    · rcases hor (ps .castellano).length
          (Nat.min (ps .eu_ES).length (Nat.min (ps .gl_ES).length (ps .vl_ES).length))
        with h2 | h2
      · exact ⟨.castellano, by unfold minCount; rw [h1, h2]⟩
      · rcases hor (ps .eu_ES).length (Nat.min (ps .gl_ES).length (ps .vl_ES).length)
          with h3 | h3
        · exact ⟨.eu_ES, by unfold minCount; rw [h1, h2, h3]⟩
        · rcases hor (ps .gl_ES).length (ps .vl_ES).length with h4 | h4
          · exact ⟨.gl_ES, by unfold minCount; rw [h1, h2, h3, h4]⟩
          · exact ⟨.vl_ES, by unfold minCount; rw [h1, h2, h3, h4]⟩
  · intro l hl
    constructor
    · simp [processDocumentSet, h, hl]
    · simp [List.length_drop]

/-- Witness for C2 on a concrete unequal document set. -/
theorem aligner_unequal_counts_witness :
    ((processDocumentSet exPs).outputs SLang.castellano).length = minCount exPs :=
  (aligner_unequal_counts exPs (by decide)).1 SLang.castellano

/-- C3: when the five paragraph sequences all have the same length, every
language's output is its input sequence unchanged and no discard record is
created for any language. -/
theorem aligner_equal_counts (ps : SLang → List String)
    (h : ∀ l1 l2 : SLang, (ps l1).length = (ps l2).length) :
    (∀ l, (processDocumentSet ps).outputs l = ps l) ∧
    (∀ l, (processDocumentSet ps).discards l = none) := by
  have h2 : (ps .castellano).length = (ps .ca_ES).length := h _ _
  have h3 : (ps .eu_ES).length = (ps .ca_ES).length := h _ _
  have h4 : (ps .gl_ES).length = (ps .ca_ES).length := h _ _
  have h5 : (ps .vl_ES).length = (ps .ca_ES).length := h _ _
  have hmn : minCount ps = (ps .ca_ES).length := by
    simp [minCount, h2, h3, h4, h5]
  have hmx : maxCount ps = (ps .ca_ES).length := by
    simp [maxCount, h2, h3, h4, h5]
  constructor
  · intro l
    have : minCount ps = (ps l).length := by rw [hmn, h .ca_ES l]
    simp [processDocumentSet, this, List.take_length]
  · intro l
    simp [processDocumentSet, hmn, hmx]

/-- Witness for C3 on a concrete equal-length document set. -/
theorem aligner_equal_counts_witness :
    (processDocumentSet exPsEq).outputs SLang.castellano = exPsEq SLang.castellano :=
  (aligner_equal_counts exPsEq (by intro l1 l2; cases l1 <;> cases l2 <;> rfl)).1
    SLang.castellano

/-- C6: the Verifier's aggregate verdict is true exactly when every document
of every folder passes, and a document holding all five language files passes
exactly when its five non-blank line counts are all equal.  The embedding of
`verify_all_documents` is a pure function of the tree: the script reads files
and never writes. -/
theorem verifier_contract (folders : List Folder) :
    (verifyAll folders = true ↔ ∀ f ∈ folders, ∀ d ∈ f.docs, docPasses d = true) ∧
    (∀ d : DocDir,
      (∀ lang ∈ verifyLangs, (d.files.find? fun e => e.1 = lang).isSome) →
      (docCounts d).length = 5 ∧
      (docPasses d = true ↔ ∀ a ∈ docCounts d, ∀ b ∈ docCounts d, a = b)) := by
  constructor
  · simp [verifyAll, List.all_eq_true]
  · intro d h
    have hlen : (docCounts d).length = 5 := by
      rw [docCounts]
      rw [filterMap_length_all_isSome]
      · rfl
      · intro lang hlang
        have := h lang hlang
        simpa using this
    refine ⟨hlen, ?_⟩
    rw [docPasses, beq_iff_eq, dedup_length_eq_one_iff]
    constructor
    · rintro ⟨-, hall⟩
      exact hall
    · intro hall
      refine ⟨?_, hall⟩
      intro hnil
      rw [hnil] at hlen
      simp at hlen

/-- Witness for C6: a concrete document with all five language files has five
counted files. -/
theorem verifier_contract_witness : (docCounts exDocDir).length = 5 :=
  ((verifier_contract []).2 exDocDir (by decide)).1

/-- C10: the Verifier counts exactly the language files that exist; a document
with at least one present file passes exactly when the present files' counts
are all equal (so 1-4 present files with equal counts pass), and a document
with none of the five files is a mismatch that makes the aggregate verdict
false. -/
theorem verifier_partial_docs (d : DocDir) :
    ((docCounts d).length
      = (verifyLangs.filter fun lang => (d.files.find? fun e => e.1 = lang).isSome).length) ∧
    (docCounts d ≠ [] →
      (docPasses d = true ↔ ∀ a ∈ docCounts d, ∀ b ∈ docCounts d, a = b)) ∧
    (docCounts d = [] → docPasses d = false) ∧
    (∀ folders : List Folder, ∀ f ∈ folders, d ∈ f.docs →
      docCounts d = [] → verifyAll folders = false) := by
  refine ⟨?_, ?_, ?_, ?_⟩
  · rw [docCounts, length_filterMap_eq_length_filter]
    congr 1
    apply List.filter_congr
    intro lang _
    simp
  · intro hne
    rw [docPasses, beq_iff_eq, dedup_length_eq_one_iff]
    exact ⟨fun hp => hp.2, fun hp => ⟨hne, hp⟩⟩
  · intro hnil
    rw [docPasses, hnil]
    rfl
  · intro folders f hf hd hnil
    have hdp : docPasses d = false := by rw [docPasses, hnil]; rfl
    by_contra hva
    rw [Bool.not_eq_false, verifyAll, List.all_eq_true] at hva
    have hfa := hva f hf
    rw [List.all_eq_true] at hfa
    have := hfa d hd
    rw [hdp] at this
    cases this

/-- Witness for C10: a document directory containing none of the five
language files is reported as a mismatch. -/
theorem verifier_partial_docs_witness : docPasses exEmptyDoc = false :=
  (verifier_partial_docs exEmptyDoc).2.2.1 (by decide)

/-- C7: when a document directory provides the five per-language files the
Consolidator expects (stems = `LANG_MAPPING` keys), `processDoc` reads each
with blank lines dropped; if the five read counts are not all equal it
truncates every list to their shared minimum and uses that minimum as the
paragraph count, otherwise it keeps the lists unchanged — so the lines
appended to the master streams for that document have equal length for every
language. -/
theorem consolidator_per_doc_alignment (d : DocDir) (f1 f2 f3 f4 f5 : List String)
    (h : d.files = [("castellano", f1), ("ca_ES", f2), ("va_ES", f3),
                    ("ga_ES", f4), ("eu_ES", f5)]) :
    ((processDoc d).1.map Prod.fst = ["es", "ca", "va", "ga", "eu"]) ∧
    (∀ e ∈ (processDoc d).1, e.2.length = (processDoc d).2) ∧
    ((((readDocParagraphs d).map fun e => e.2.length).dedup.length > 1 →
      (processDoc d).2 = minNat ((readDocParagraphs d).map fun e => e.2.length) ∧
      (processDoc d).1 = (readDocParagraphs d).map fun e =>
        (e.1, e.2.take (minNat ((readDocParagraphs d).map fun e2 => e2.2.length))))) ∧
    (¬ ((readDocParagraphs d).map fun e => e.2.length).dedup.length > 1 →
      (processDoc d).1 = readDocParagraphs d) := by
  obtain ⟨nm, files⟩ := d
  simp only at h
  subst h
  have hexp : processDoc ⟨nm, [("castellano", f1), ("ca_ES", f2), ("va_ES", f3),
      ("ga_ES", f4), ("eu_ES", f5)]⟩
      = (if ([(stripBlank f1).length, (stripBlank f2).length, (stripBlank f3).length,
              (stripBlank f4).length, (stripBlank f5).length] : List Nat).dedup.length > 1
         then
           (let m := minNat [(stripBlank f1).length, (stripBlank f2).length,
              (stripBlank f3).length, (stripBlank f4).length, (stripBlank f5).length]
            ([("es", (stripBlank f1).take m), ("ca", (stripBlank f2).take m),
              ("va", (stripBlank f3).take m), ("ga", (stripBlank f4).take m),
              ("eu", (stripBlank f5).take m)], m))
         else
           ([("es", stripBlank f1), ("ca", stripBlank f2), ("va", stripBlank f3),
             ("ga", stripBlank f4), ("eu", stripBlank f5)],
            firstNonzero [(stripBlank f1).length, (stripBlank f2).length,
              (stripBlank f3).length, (stripBlank f4).length, (stripBlank f5).length])) :=
    rfl
  have hrd : readDocParagraphs ⟨nm, [("castellano", f1), ("ca_ES", f2), ("va_ES", f3),
      ("ga_ES", f4), ("eu_ES", f5)]⟩
      = [("es", stripBlank f1), ("ca", stripBlank f2), ("va", stripBlank f3),
         ("ga", stripBlank f4), ("eu", stripBlank f5)] := rfl
  by_cases hm : ([(stripBlank f1).length, (stripBlank f2).length, (stripBlank f3).length,
      (stripBlank f4).length, (stripBlank f5).length] : List Nat).dedup.length > 1
  · rw [hexp, if_pos hm]
    refine ⟨by simp, ?_, fun _ => ⟨rfl, rfl⟩, fun hc => absurd hm hc⟩
    intro e he
    simp only [List.mem_cons, List.not_mem_nil, or_false] at he
    rcases he with rfl | rfl | rfl | rfl | rfl <;>
      · rw [List.length_take]
        exact Nat.min_eq_left (minNat_le (by simp))
  · rw [hexp, if_neg hm]
    have hall := dedup_length_le_one (Nat.le_of_not_lt hm)
    have h2 : (stripBlank f2).length = (stripBlank f1).length :=
      hall _ (by simp) _ (by simp)
    have h3 : (stripBlank f3).length = (stripBlank f1).length :=
      hall _ (by simp) _ (by simp)
    have h4 : (stripBlank f4).length = (stripBlank f1).length :=
      hall _ (by simp) _ (by simp)
    have h5 : (stripBlank f5).length = (stripBlank f1).length :=
      hall _ (by simp) _ (by simp)
    have hfz : firstNonzero [(stripBlank f1).length, (stripBlank f2).length,
        (stripBlank f3).length, (stripBlank f4).length, (stripBlank f5).length]
        = (stripBlank f1).length := by
      rw [h2, h3, h4, h5]
      by_cases h0 : (stripBlank f1).length = 0 <;> simp [firstNonzero, h0]
    refine ⟨by simp, ?_, fun hc => absurd hc hm, fun _ => rfl⟩
    intro e he
    simp only [List.mem_cons, List.not_mem_nil, or_false] at he
    rcases he with rfl | rfl | rfl | rfl | rfl <;>
      · simp only [h2, h3, h4, h5]
        by_cases h0 : (stripBlank f1).length = 0 <;> simp [firstNonzero, h0]

/-- Witness for C7 at a concrete mismatched document. -/
theorem consolidator_per_doc_alignment_witness :
    (processDoc exConsDoc).1.map Prod.fst = ["es", "ca", "va", "ga", "eu"] :=
  (consolidator_per_doc_alignment exConsDoc ["a", "b"] ["a"] ["a"] ["a"] ["a"] rfl).1

/-- C1: the Consolidator's `LANG_MAPPING` keys `va_ES`/`ga_ES` never match the
stage-1 file stems `vl_ES`/`gl_ES`, so on a stage-1 output tree with one
document of one aligned paragraph the `va` and `ga` master files stay empty
(0 lines) while `es`, `ca`, `eu` get 1 line — the sum of aligned paragraph
counts is 1, so the five master files neither all equal that sum nor agree
with each other. -/
theorem consolidator_master_counts_diverge :
    lookupLang "vl_ES" = none ∧ lookupLang "gl_ES" = none ∧
    (consolidate stage1OutTree).2 = 1 ∧
    (masterOf "es").length = 1 ∧ (masterOf "ca").length = 1 ∧
    (masterOf "eu").length = 1 ∧
    (masterOf "va").length = 0 ∧ (masterOf "ga").length = 0 ∧
    ¬ ((masterOf "va").length = (consolidate stage1OutTree).2) := by
  decide

/-- C8 counterexample: with a first document that fails and a second that
would succeed, the Consolidator's per-document loop (which has no handler)
aborts with the error instead of continuing, while stage 1's loop catches the
error, counts it as failed, logs it with the document name, and still
processes the second document. -/
theorem batch_loop_uncaught_counterexample :
    mainBatch2 [("docA", Except.error "boom"), ("docB", Except.ok ())]
      = Except.error "boom" ∧
    mainBatch1 [("docA", Except.error "boom"), ("docB", Except.ok ())]
      = (1, 1, ["Error processing docA: boom"]) :=
  ⟨rfl, rfl⟩

/-- C8 (amended): in stage 1's batch loop every document set is attempted
(successes and failures add up to the whole batch), each failure is counted
and logged with its document name and error message; the Consolidator's loop,
by contrast, completes only when no document fails — a failure aborts it. -/
theorem batch_error_handling_amended (outcomes : List (String × Except String Unit)) :
    ((mainBatch1 outcomes).1 + (mainBatch1 outcomes).2.1 = outcomes.length) ∧
    ((mainBatch1 outcomes).2.1 = (outcomes.filter fun o => isErr o.2).length) ∧
    (∀ doc e, (doc, Except.error e) ∈ outcomes →
      ("Error processing " ++ doc ++ ": " ++ e) ∈ (mainBatch1 outcomes).2.2) ∧
    (∀ m, mainBatch2 outcomes = Except.ok m →
      ∀ o ∈ outcomes, ∃ u, o.2 = Except.ok u) := by
  have h1 := mb1_foldl_spec outcomes 0 0 []
  refine ⟨by have := h1.1; simpa [mainBatch1] using this,
          by have := h1.2.1; simpa [mainBatch1] using this,
          fun doc e hmem => h1.2.2.2 doc e hmem,
          fun m h o ho => mb2go_ok (show mb2go 0 outcomes = Except.ok m from h) o ho⟩

theorem batch_error_handling_amended_witness :
    ("Error processing docA: boom")
      ∈ (mainBatch1 [("docA", Except.error "boom")]).2.2 :=
  (batch_error_handling_amended [("docA", Except.error "boom")]).2.2.1 "docA" "boom"
    (List.mem_singleton.mpr rfl)

/-- Every grouped file pair carries one of the five language codes. -/
theorem mem_matchedFiles_code {files : List String} {cb : String × String}
    (h : cb ∈ matchedFiles files) : cb.1 ∈ langCodes := by
  rw [matchedFiles] at h
  obtain ⟨n, hn, hcb⟩ := List.mem_filterMap.mp h
  split at hcb
  · exact absurd hcb (by simp)
  · split at hcb
    · next code base heq =>
      split at hcb
      · exact absurd hcb (by simp)
      · cases hcb
        obtain ⟨entry, hentry, hfs⟩ := List.exists_of_findSome?_eq_some heq
        cases hsa : stripAlt n entry.2 with
        | none => rw [hsa] at hfs; exact absurd hfs (by simp)
        | some b0 =>
          rw [hsa] at hfs
          simp only [Option.map_some'] at hfs
          have hct : entry.1 = code := by
            injection hfs with hfs'
            exact congrArg Prod.fst hfs'
          show code ∈ langCodes
          rw [← hct]
          exact List.mem_map.mpr ⟨entry, hentry, rfl⟩
    · exact absurd hcb (by simp)

/-- A code is collected for `base` exactly when some file was grouped as
`(code, base)`. -/
theorem mem_langsOf {files : List String} {base code : String} :
    code ∈ langsOf files base ↔ (code, base) ∈ matchedFiles files := by
  rw [langsOf, List.mem_dedup, List.mem_filterMap]
  constructor
  · rintro ⟨⟨c1, c2⟩, hcb, hg⟩
    by_cases hb : c2 = base
    · subst hb
      rw [if_pos rfl] at hg
      injection hg with hg'
      subst hg'
      exact hcb
    · rw [if_neg hb] at hg
      cases hg
  · intro hmem
    exact ⟨(code, base), hmem, by rw [if_pos rfl]⟩

/-- C5: a base name appears in the discovered sets exactly when all five
language codes were collected for it, so any base with 1-4 matched language
files is absent; in particular the inputs `doc_castellano.docx` and
`doc_ca-ES.docx` alone yield no document set `doc`. -/
theorem discovery_requires_all_five :
    (∀ (files : List String) (base : String),
      base ∈ discoveredBases files ↔ ∀ code ∈ langCodes, code ∈ langsOf files base) ∧
    "doc" ∉ discoveredBases ["doc_castellano.docx", "doc_ca-ES.docx"] := by
  constructor
  · intro files base
    constructor
    · intro h
      obtain ⟨hmem, hlen⟩ := List.mem_filter.mp h
      have hlen5 : (langsOf files base).length = 5 := by simpa using hlen
      have hsub : langsOf files base ⊆ langCodes := fun c hc =>
        mem_matchedFiles_code (mem_langsOf.mp hc)
      have hnd : (langsOf files base).Nodup := List.nodup_dedup _
      obtain ⟨l2, hperm, hsl⟩ := List.subperm_of_subset hnd hsub
      have hl2 : l2 = langCodes := by
        refine hsl.eq_of_length ?_
        rw [hperm.length_eq, hlen5]
        rfl
      intro code hcode
      rw [← hperm.mem_iff, hl2]
      exact hcode
    · intro hall
      have hc0 : "castellano" ∈ langsOf files base := hall _ (by decide)
      have hmem : base ∈ ((matchedFiles files).map Prod.snd).dedup := by
        rw [List.mem_dedup]
        exact List.mem_map.mpr ⟨("castellano", base), mem_langsOf.mp hc0, rfl⟩
      rw [discoveredBases, List.mem_filter]
      refine ⟨hmem, ?_⟩
      have hsubcodes : langCodes ⊆ langsOf files base := fun c hc => hall c hc
      have hsub : langsOf files base ⊆ langCodes := fun c hc =>
        mem_matchedFiles_code (mem_langsOf.mp hc)
      have hnd : (langsOf files base).Nodup := List.nodup_dedup _
      have hndc : langCodes.Nodup := by decide
      have hperm := List.Subperm.antisymm
        (List.subperm_of_subset hnd hsub) (List.subperm_of_subset hndc hsubcodes)
      simp only [decide_eq_true_eq]
      rw [hperm.length_eq]
      rfl
  · decide

/-- Witness for C5: `a` is discovered from a full five-language set, and its
collected codes include `castellano`. -/
theorem discovery_requires_all_five_witness :
    "castellano" ∈ langsOf files5 "a" :=
  (discovery_requires_all_five.1 files5 "a").mp (by decide) "castellano" (by decide)
